import Mathlib

/-!
Verification of the PoDoFo xref resolver, indirect-object store and parser
front end, shallowly embedded from the C++ sources
(PdfParser translation unit and PdfIndirectObjectList.cpp).
Machine integers are modelled as Nat or Int; fallible code returns Except.
-/

set_option linter.unusedVariables false

/-- Error kinds raised at the library boundary (PdfErrorCode). -/
inductive PdfErrorCode where
  | invalidPDF
  | invalidXRef
  | invalidTrailer
  | invalidEOFToken
  | invalidNumber
  | invalidName
  | invalidDataType
  | invalidObject
  | invalidEncryptionDict
  | invalidPassword
  | unsupportedFontFormat
  | objectNotFound
  | recursionLimit
  | valueOutOfRange
  | unexpectedEOF
  | internalLogic
  | invalidEnumValue
  deriving DecidableEq

/-- A raised PdfError: the code plus the info string passed to
PODOFO_RAISE_ERROR_INFO (empty for PODOFO_RAISE_ERROR). -/
structure PdfError where
  code : PdfErrorCode
  info : String
  deriving DecidableEq

/-- PdfReference: object number and generation number pair. -/
structure PdfReference where
  objectNumber : Nat
  generation : Nat
  deriving DecidableEq

/-- Strict ordering of references, lexicographic on
(object number, generation), as in PdfReference::operator < . -/
def PdfReference.lt (a b : PdfReference) : Prop :=
  a.objectNumber < b.objectNumber ∨
    (a.objectNumber = b.objectNumber ∧ a.generation < b.generation)

instance (a b : PdfReference) : Decidable (PdfReference.lt a b) := by
  unfold PdfReference.lt; infer_instance

/-- Minimal PDF value universe needed by trailer dictionaries. -/
inductive PdfVal where
  | int (i : Int)
  | name (s : String)
  | ref (r : PdfReference)
  | null
  | other (tag : Nat)
  deriving DecidableEq

/-- PdfDictionary: association list of key and value, insertion ordered. -/
abbrev Dict := List (String × PdfVal)

/-- PdfDictionary::GetKey - lookup a key. -/
def dictLookup (d : Dict) (k : String) : Option PdfVal :=
  match d with
  | [] => none
  | (k', v) :: rest => if k' = k then some v else dictLookup rest k

/-- PdfDictionary::HasKey. -/
def dictHasKey (d : Dict) (k : String) : Bool :=
  (dictLookup d k).isSome

/-- PdfDictionary::AddKey - replaces the value when the key is present,
otherwise appends the pair. -/
def dictAddKey (d : Dict) (k : String) (v : PdfVal) : Dict :=
  if dictHasKey d k then
    d.map (fun p => if p.1 = k then (k, v) else p)
  else
    d ++ [(k, v)]

/-- One step of PdfParser::mergeTrailer: copy key k from trailer t into the
main trailer only when t has it and the main trailer does not. -/
def copyTrailerKey (mainTrailer t : Dict) (k : String) : Dict :=
  match dictLookup t k with
  | some v => if dictHasKey mainTrailer k then mainTrailer else dictAddKey mainTrailer k v
  | none => mainTrailer

/-- PdfParser::mergeTrailer - updates only the keys Size, Root, Encrypt,
Info, ID, each only when not already present in the main trailer. -/
def mergeTrailer (mainTrailer t : Dict) : Dict :=
  copyTrailerKey
    (copyTrailerKey
      (copyTrailerKey
        (copyTrailerKey
          (copyTrailerKey mainTrailer t ("Size"))
          t ("Root"))
        t ("Encrypt"))
      t ("Info"))
    t ("ID")

/-- The five keys mergeTrailer copies. -/
def mergedTrailerKeys : List String :=
  [("Size"), ("Root"), ("Encrypt"), ("Info"), ("ID")]

/-- The trailer walk of PdfParser processes revisions newest first: the
first trailer read becomes the main trailer wholesale, each later trailer
is merged into it with mergeTrailer. -/
def processTrailers : List Dict → Option Dict
  | [] => none
  | t :: rest => some (rest.foldl mergeTrailer t)

/-- Value of key k in the first (newest) trailer of the list defining it. -/
def firstDefining (ts : List Dict) (k : String) : Option PdfVal :=
  match ts with
  | [] => none
  | t :: rest =>
    match dictLookup t k with
    | some v => some v
    | none => firstDefining rest k

theorem dictLookup_append_right (d : Dict) (k : String) (v : PdfVal)
    (h : dictLookup d k = none) :
    dictLookup (d ++ [(k, v)]) k = some v := by
  induction d with
  | nil => simp [dictLookup]
  | cons p rest ih =>
    obtain ⟨k0, v0⟩ := p
    by_cases hk : k0 = k
    · simp [dictLookup, hk] at h
    · simp only [dictLookup, if_neg hk] at h
      simpa [dictLookup, if_neg hk] using ih h

theorem dictLookup_map_replace_ne (d : Dict) (k k' : String) (v : PdfVal)
    (h : k' ≠ k) :
    dictLookup (d.map (fun p => if p.1 = k then (k, v) else p)) k' =
      dictLookup d k' := by
  induction d with
  | nil => simp [dictLookup]
  | cons p rest ih =>
    obtain ⟨k0, v0⟩ := p
    simp only [List.map_cons]
    by_cases hk : k0 = k
    · rw [if_pos hk]
      have hne : ¬k = k' := fun hh => h hh.symm
      have hne0 : ¬k0 = k' := by rw [hk]; exact hne
      simp only [dictLookup, if_neg hne, if_neg hne0]
      exact ih
    · rw [if_neg hk]
      simp only [dictLookup]
      by_cases hk' : k0 = k'
      · rw [if_pos hk', if_pos hk']
      · rw [if_neg hk', if_neg hk']
        exact ih

theorem dictLookup_append_ne (d : Dict) (k k' : String) (v : PdfVal)
    (h : k' ≠ k) :
    dictLookup (d ++ [(k, v)]) k' = dictLookup d k' := by
  induction d with
  | nil => simp [dictLookup, Ne.symm h]
  | cons p rest ih =>
    obtain ⟨k0, v0⟩ := p
    by_cases hk : k0 = k'
    · simp [dictLookup, hk]
    · simp [dictLookup, hk, ih]

theorem dictLookup_addKey_ne (d : Dict) (k k' : String) (v : PdfVal)
    (h : k' ≠ k) :
    dictLookup (dictAddKey d k v) k' = dictLookup d k' := by
  unfold dictAddKey
  by_cases hh : dictHasKey d k = true
  · rw [if_pos hh]; exact dictLookup_map_replace_ne d k k' v h
  · rw [if_neg hh]; exact dictLookup_append_ne d k k' v h

/-- Master lemma for one copy step: the lookup of k changes only when the
copied key is k itself, the main trailer lacks k and t has it. -/
theorem dictLookup_copyTrailerKey (mainTrailer t : Dict) (k k' : String) :
    dictLookup (copyTrailerKey mainTrailer t k') k =
      if k = k' ∧ (dictLookup mainTrailer k).isNone then
        (dictLookup t k').elim (dictLookup mainTrailer k) some
      else dictLookup mainTrailer k := by
  by_cases hkk : k = k'
  · subst hkk
    cases ht : dictLookup t k with
    | none => simp [copyTrailerKey, ht]
    | some v =>
      by_cases hm : dictHasKey mainTrailer k = true
      · have hsome : (dictLookup mainTrailer k).isSome = true := hm
        have hnotnone : ¬(dictLookup mainTrailer k).isNone = true := by
          cases hmk : dictLookup mainTrailer k with
          | none => rw [hmk] at hsome; cases hsome
          | some w => simp
        simp [copyTrailerKey, ht, hm, hnotnone]
      · have h3 : dictLookup mainTrailer k = none := by
          unfold dictHasKey at hm
          cases hmk : dictLookup mainTrailer k with
          | none => rfl
          | some w => rw [hmk] at hm; simp at hm
        simp [copyTrailerKey, ht, hm, dictAddKey, dictHasKey, h3,
              dictLookup_append_right mainTrailer k v h3]
  · cases ht : dictLookup t k' with
    | none => simp [copyTrailerKey, ht, hkk]
    | some v =>
      by_cases hm : dictHasKey mainTrailer k' = true
      · simp [copyTrailerKey, ht, hm, hkk]
      · simp [copyTrailerKey, ht, hm, hkk,
              dictLookup_addKey_ne mainTrailer k' k v hkk]

/-- Lookup through a full mergeTrailer call: for the five copied keys a
missing key is filled from t, everything else is untouched. -/
theorem dictLookup_mergeTrailer (eff t : Dict) (k : String) :
    dictLookup (mergeTrailer eff t) k =
      if k ∈ mergedTrailerKeys ∧ (dictLookup eff k).isNone then dictLookup t k
      else dictLookup eff k := by
  unfold mergeTrailer
  simp only [dictLookup_copyTrailerKey]
  by_cases h1 : k = ("Size")
  · subst h1
    cases heff : dictLookup eff ("Size") <;>
      cases ht : dictLookup t ("Size") <;>
        simp [mergedTrailerKeys, heff, ht]
  · by_cases h2 : k = ("Root")
    · subst h2
      cases heff : dictLookup eff ("Root") <;>
        cases ht : dictLookup t ("Root") <;>
          simp [mergedTrailerKeys, heff, ht]
    · by_cases h3 : k = ("Encrypt")
      · subst h3
        cases heff : dictLookup eff ("Encrypt") <;>
          cases ht : dictLookup t ("Encrypt") <;>
            simp [mergedTrailerKeys, heff, ht]
      · by_cases h4 : k = ("Info")
        · subst h4
          cases heff : dictLookup eff ("Info") <;>
            cases ht : dictLookup t ("Info") <;>
              simp [mergedTrailerKeys, heff, ht]
        · by_cases h5 : k = ("ID")
          · subst h5
            cases heff : dictLookup eff ("ID") <;>
              cases ht : dictLookup t ("ID") <;>
                simp [mergedTrailerKeys, heff, ht]
          · simp [mergedTrailerKeys, h1, h2, h3, h4, h5]

theorem foldl_mergeTrailer_lookup (ts : List Dict) (acc : Dict) (k : String)
    (hk : k ∈ mergedTrailerKeys) :
    dictLookup (List.foldl mergeTrailer acc ts) k =
      match dictLookup acc k with
      | some v => some v
      | none => firstDefining ts k := by
  induction ts generalizing acc with
  | nil => cases h : dictLookup acc k <;> simp [firstDefining, h]
  | cons t rest ih =>
    simp only [List.foldl_cons]
    rw [ih]
    rw [dictLookup_mergeTrailer]
    cases hacc : dictLookup acc k with
    | some v => simp [hk, hacc]
    | none =>
      cases ht : dictLookup t k <;> simp [hk, hacc, ht, firstDefining]

/-- C3: mergeTrailer copies exactly the five keys Size, Root, Encrypt,
Info, ID from an older trailer, each only when the effective trailer does
not already contain it; consequently, walking revisions newest first, each
of these keys in the effective trailer equals its value in the most recent
revision that defines it. -/
theorem mergeTrailer_newest_wins :
    (∀ (eff t : Dict) (k : String), k ∉ mergedTrailerKeys →
        dictLookup (mergeTrailer eff t) k = dictLookup eff k)
    ∧ (∀ (eff t : Dict) (k : String), (dictLookup eff k).isSome →
        dictLookup (mergeTrailer eff t) k = dictLookup eff k)
    ∧ (∀ (t : Dict) (ts : List Dict) (k : String), k ∈ mergedTrailerKeys →
        dictLookup (List.foldl mergeTrailer t ts) k = firstDefining (t :: ts) k) := by
  refine ⟨?_, ?_, ?_⟩
  · intro eff t k hk
    rw [dictLookup_mergeTrailer]
    simp [hk]
  · intro eff t k hk
    rw [dictLookup_mergeTrailer]
    cases h : dictLookup eff k with
    | none => rw [h] at hk; cases hk
    | some v => simp
  · intro t ts k hk
    rw [foldl_mergeTrailer_lookup ts t k hk]
    cases h : dictLookup t k <;> simp [firstDefining, h]

/-- Witness for C3 at concrete dictionaries: the newest revision defining
Root wins, an absent Size is filled from the older revision, and a key
outside the five is never copied. -/
theorem mergeTrailer_newest_wins_witness :
    dictLookup
        (List.foldl mergeTrailer
          [(("Root"), PdfVal.ref ⟨1, 0⟩)]
          [[(("Root"), PdfVal.ref ⟨9, 0⟩), (("Size"), PdfVal.int 4)],
           [(("Prev"), PdfVal.int 100)]])
        ("Root")
      = firstDefining
          [[(("Root"), PdfVal.ref ⟨1, 0⟩)],
           [(("Root"), PdfVal.ref ⟨9, 0⟩), (("Size"), PdfVal.int 4)],
           [(("Prev"), PdfVal.int 100)]] ("Root") :=
  mergeTrailer_newest_wins.2.2
    [(("Root"), PdfVal.ref ⟨1, 0⟩)]
    [[(("Root"), PdfVal.ref ⟨9, 0⟩), (("Size"), PdfVal.int 4)],
     [(("Prev"), PdfVal.int 100)]]
    ("Root") (by decide)

/-! ## Indirect-object store (PdfIndirectObjectList) -/

/-- MaxXRefGenerationNum in PdfIndirectObjectList.cpp. -/
def MaxXRefGenerationNum : Nat := 65535

/-- State of a PdfIndirectObjectList: the object keys, the sorted free
list, the unavailable set, the compressed object stream set, the object
count and the configured maximum object count. The allocated field is a
ghost trace of every reference returned by getNextFreeObject through
addNewObject, recorded for specification purposes only. -/
structure StoreState where
  objects : List PdfReference
  freeObjects : List PdfReference
  unavailableObjects : List Nat
  compressedObjectStreams : List Nat
  objectCount : Nat
  maxObjectCount : Nat
  allocated : List PdfReference
  deriving DecidableEq

/-- Set insert for the Nat sets backed by std::unordered_set / std::set. -/
def insertNatSet (n : Nat) (l : List Nat) : List Nat :=
  if n ∈ l then l else n :: l

/-- Set insert for the reference-keyed object list (std::set emplace or
node replace in PushObject: the key set gains ref when absent). -/
def insertRefSet (r : PdfReference) (l : List PdfReference) : List PdfReference :=
  if r ∈ l then l else r :: l

/-- PdfIndirectObjectList::tryIncrementObjectCount. -/
def tryIncrementObjectCount (st : StoreState) (ref : PdfReference) : StoreState :=
  if ref.objectNumber > st.objectCount then
    { st with objectCount := ref.objectNumber }
  else st

/-- Sorted insert of a reference at the std::equal_range lower bound,
keeping the free list ordered by PdfReference::operator < . -/
def insertFree (r : PdfReference) : List PdfReference → List PdfReference
  | [] => [r]
  | x :: xs => if PdfReference.lt x r then x :: insertFree r xs else r :: x :: xs

/-- PdfIndirectObjectList::AddFreeObject: a reference already contained in
the free list is ignored (debug log), otherwise it is inserted keeping the
list sorted, and the object count is updated. -/
def addFreeObject (st : StoreState) (reference : PdfReference) : StoreState :=
  if reference ∈ st.freeObjects then
    st
  else
    tryIncrementObjectCount
      { st with freeObjects := insertFree reference st.freeObjects }
      reference

/-- PdfIndirectObjectList::tryAddFreeObject. NOTE: the C++ source inserts
gennum, the generation number, into m_unavailableObjects here. -/
def tryAddFreeObject (st : StoreState) (objnum gennum : Nat) : StoreState × Int :=
  if gennum ≥ MaxXRefGenerationNum then
    ({ st with unavailableObjects := insertNatSet gennum st.unavailableObjects }, -1)
  else
    (addFreeObject st ⟨objnum, gennum⟩, (gennum : Int))

/-- PdfIndirectObjectList::SafeAddFreeObject: increment the generation
before adding to the free list. -/
def safeAddFreeObject (st : StoreState) (reference : PdfReference) : StoreState × Int :=
  tryAddFreeObject st reference.objectNumber (reference.generation + 1)

/-- PdfIndirectObjectList::AddCompressedObjectStream. -/
def addCompressedObjectStream (st : StoreState) (objectNum : Nat) : StoreState :=
  { st with compressedObjectStreams := insertNatSet objectNum st.compressedObjectStreams }

/-- The while loop of getNextFreeObject: advance past unavailable object
numbers, raising ValueOutOfRange beyond the configured maximum. The fuel
argument only bounds the loop; callers pass enough for the loop to reach
its own exit conditions. -/
def findNextAvail (unavailable : List Nat) (maxCount : Nat) : Nat → Nat → Except PdfError Nat
  | 0, _ =>
    .error ⟨.valueOutOfRange, "Reached the maximum number of indirect objects"⟩
  | fuel + 1, n =>
    if n > maxCount then
      .error ⟨.valueOutOfRange, "Reached the maximum number of indirect objects"⟩
    else if n ∈ unavailable then
      findNextAvail unavailable maxCount fuel (n + 1)
    else
      .ok n

/-- PdfIndirectObjectList::getNextFreeObject: pop the front of the free
list when possible, otherwise scan from objectCount + 1 skipping object
numbers found in the unavailable set. -/
def getNextFreeObject (st : StoreState) : Except PdfError (PdfReference × StoreState) :=
  match st.freeObjects with
  | freeObjectRef :: rest => .ok (freeObjectRef, { st with freeObjects := rest })
  | [] =>
    match findNextAvail st.unavailableObjects st.maxObjectCount
        (st.maxObjectCount + 2) (st.objectCount + 1) with
    | .ok n => .ok (⟨n, 0⟩, st)
    | .error e => .error e

/-- PdfIndirectObjectList::PushObject on the key set, plus the object
count update. -/
def pushObjectRef (st : StoreState) (ref : PdfReference) : StoreState :=
  tryIncrementObjectCount { st with objects := insertRefSet ref st.objects } ref

/-- PdfIndirectObjectList::addNewObject as triggered by the CreateObject
family: allocate a reference and push the new object. The allocation is
recorded in the ghost trace. -/
def createObject (st : StoreState) : Except PdfError StoreState :=
  match getNextFreeObject st with
  | .ok (ref, st') =>
    .ok (pushObjectRef { st' with allocated := st'.allocated ++ [ref] } ref)
  | .error e => .error e

/-- PdfIndirectObjectList::RemoveObject(ref, markAsFree): absent references
return null without changes; a compressed object stream container raises
InternalLogic; otherwise the reference is handed to SafeAddFreeObject when
markAsFree is set, and the object is erased. -/
def removeObject (st : StoreState) (ref : PdfReference) (markAsFree : Bool) :
    Except PdfError StoreState :=
  if ref ∈ st.objects then
    if ref.objectNumber ∈ st.compressedObjectStreams then
      .error ⟨.internalLogic, "Cant remove a compressed object stream"⟩
    else
      let st' := if markAsFree then (safeAddFreeObject st ref).1 else st
      .ok { st' with objects := st'.objects.erase ref }
  else
    .ok st

/-- Store operations exercised by the claims: allocation, removal and the
free list entry points. -/
inductive StoreOp where
  | create
  | remove (r : PdfReference) (markAsFree : Bool)
  | addFree (r : PdfReference)
  | tryAddFree (objnum gennum : Nat)
  | safeAddFree (r : PdfReference)
  | addCompressed (n : Nat)
  deriving DecidableEq

def applyOp (st : StoreState) : StoreOp → Except PdfError StoreState
  | .create => createObject st
  | .remove r m => removeObject st r m
  | .addFree r => .ok (addFreeObject st r)
  | .tryAddFree o g => .ok (tryAddFreeObject st o g).1
  | .safeAddFree r => .ok (safeAddFreeObject st r).1
  | .addCompressed n => .ok (addCompressedObjectStream st n)

/-- Run one operation; raised errors leave the store unchanged, matching
the C++ where every throw happens before any mutation. -/
def stepOp (st : StoreState) (op : StoreOp) : StoreState :=
  match applyOp st op with
  | .ok st' => st'
  | .error _ => st

def runOps (st : StoreState) (ops : List StoreOp) : StoreState :=
  ops.foldl stepOp st

/-- The free list invariant: strictly ascending by reference order, which
also rules out duplicates. -/
def freeListSorted (l : List PdfReference) : Prop :=
  List.Pairwise PdfReference.lt l

instance : DecidableRel PdfReference.lt := fun a b => by
  unfold PdfReference.lt; infer_instance

instance (l : List PdfReference) : Decidable (freeListSorted l) := by
  unfold freeListSorted; infer_instance

instance {e a : Type} [DecidableEq e] [DecidableEq a] : DecidableEq (Except e a)
  | .ok x, .ok y =>
    if h : x = y then .isTrue (by rw [h])
    else .isFalse (by intro hh; cases hh; exact h rfl)
  | .ok x, .error f => .isFalse (by intro hh; cases hh)
  | .error f, .ok x => .isFalse (by intro hh; cases hh)
  | .error f, .error g =>
    if h : f = g then .isTrue (by rw [h])
    else .isFalse (by intro hh; cases hh; exact h rfl)

theorem PdfReference.lt_trans {a b c : PdfReference}
    (h1 : PdfReference.lt a b) (h2 : PdfReference.lt b c) :
    PdfReference.lt a c := by
  unfold PdfReference.lt at *
  obtain ⟨an, ag⟩ := a; obtain ⟨bn, bg⟩ := b; obtain ⟨cn, cg⟩ := c
  simp only at *
  omega

theorem PdfReference.lt_of_not_lt_of_ne {x r : PdfReference}
    (h1 : ¬PdfReference.lt x r) (h2 : ¬x = r) : PdfReference.lt r x := by
  unfold PdfReference.lt at *
  obtain ⟨xn, xg⟩ := x; obtain ⟨rn, rg⟩ := r
  simp only [PdfReference.mk.injEq] at *
  omega

theorem mem_insertFree {y r : PdfReference} {l : List PdfReference}
    (h : y ∈ insertFree r l) : y = r ∨ y ∈ l := by
  induction l with
  | nil => simpa [insertFree] using h
  | cons x xs ih =>
    unfold insertFree at h
    by_cases hx : PdfReference.lt x r
    · rw [if_pos hx] at h
      rcases List.mem_cons.mp h with h1 | h1
      · right; exact List.mem_cons.mpr (Or.inl h1)
      · rcases ih h1 with h2 | h2
        · left; exact h2
        · right; exact List.mem_cons.mpr (Or.inr h2)
    · rw [if_neg hx] at h
      rcases List.mem_cons.mp h with h1 | h1
      · left; exact h1
      · right; exact h1

theorem insertFree_pairwise {r : PdfReference} {l : List PdfReference}
    (hs : freeListSorted l) (hmem : r ∉ l) :
    freeListSorted (insertFree r l) := by
  induction l with
  | nil => simp [insertFree, freeListSorted]
  | cons x xs ih =>
    rw [freeListSorted, List.pairwise_cons] at hs
    obtain ⟨hx, hxs⟩ := hs
    have hrx : r ≠ x := fun h => hmem (h ▸ List.mem_cons_self x xs)
    have hrxs : r ∉ xs := fun h => hmem (List.mem_cons.mpr (Or.inr h))
    unfold insertFree
    by_cases hlt : PdfReference.lt x r
    · rw [if_pos hlt]
      rw [freeListSorted, List.pairwise_cons]
      refine ⟨?_, ih hxs hrxs⟩
      intro y hy
      rcases mem_insertFree hy with h1 | h1
      · rw [h1]; exact hlt
      · exact hx y h1
    · rw [if_neg hlt]
      have hrltx : PdfReference.lt r x :=
        PdfReference.lt_of_not_lt_of_ne hlt (fun h => hrx h.symm)
      rw [freeListSorted, List.pairwise_cons]
      refine ⟨?_, ?_⟩
      · intro y hy
        rcases List.mem_cons.mp hy with h1 | h1
        · rw [h1]; exact hrltx
        · exact PdfReference.lt_trans hrltx (hx y h1)
      · rw [List.pairwise_cons]
        exact ⟨hx, hxs⟩

theorem tryIncrementObjectCount_freeObjects (st : StoreState) (ref : PdfReference) :
    (tryIncrementObjectCount st ref).freeObjects = st.freeObjects := by
  unfold tryIncrementObjectCount
  split <;> rfl

theorem pushObjectRef_freeObjects (st : StoreState) (ref : PdfReference) :
    (pushObjectRef st ref).freeObjects = st.freeObjects := by
  unfold pushObjectRef
  rw [tryIncrementObjectCount_freeObjects]

theorem addFreeObject_sorted {st : StoreState} (r : PdfReference)
    (h : freeListSorted st.freeObjects) :
    freeListSorted (addFreeObject st r).freeObjects := by
  unfold addFreeObject
  by_cases hmem : r ∈ st.freeObjects
  · rw [if_pos hmem]; exact h
  · rw [if_neg hmem, tryIncrementObjectCount_freeObjects]
    exact insertFree_pairwise h hmem

theorem tryAddFreeObject_sorted {st : StoreState} (o g : Nat)
    (h : freeListSorted st.freeObjects) :
    freeListSorted (tryAddFreeObject st o g).1.freeObjects := by
  unfold tryAddFreeObject
  by_cases hg : g ≥ MaxXRefGenerationNum
  · rw [if_pos hg]; exact h
  · rw [if_neg hg]; exact addFreeObject_sorted _ h

theorem safeAddFreeObject_sorted {st : StoreState} (r : PdfReference)
    (h : freeListSorted st.freeObjects) :
    freeListSorted (safeAddFreeObject st r).1.freeObjects := by
  unfold safeAddFreeObject
  exact tryAddFreeObject_sorted _ _ h

theorem getNextFreeObject_sorted {st st1 : StoreState} {ref : PdfReference}
    (hg : getNextFreeObject st = .ok (ref, st1))
    (h : freeListSorted st.freeObjects) :
    freeListSorted st1.freeObjects := by
  unfold getNextFreeObject at hg
  cases hfl : st.freeObjects with
  | nil =>
    rw [hfl] at hg
    cases hna : findNextAvail st.unavailableObjects st.maxObjectCount
        (st.maxObjectCount + 2) (st.objectCount + 1) with
    | ok n =>
      rw [hna] at hg
      cases hg
      exact h
    | error e => rw [hna] at hg; cases hg
  | cons a rest =>
    rw [hfl] at hg
    cases hg
    rw [hfl] at h
    exact (List.pairwise_cons.mp h).2

theorem createObject_sorted {st st' : StoreState}
    (hc : createObject st = .ok st')
    (h : freeListSorted st.freeObjects) :
    freeListSorted st'.freeObjects := by
  unfold createObject at hc
  cases hg : getNextFreeObject st with
  | error e => rw [hg] at hc; cases hc
  | ok p =>
    obtain ⟨ref, st1⟩ := p
    rw [hg] at hc
    cases hc
    rw [pushObjectRef_freeObjects]
    show freeListSorted st1.freeObjects
    exact getNextFreeObject_sorted hg h

theorem removeObject_sorted {st st' : StoreState} {r : PdfReference} {m : Bool}
    (hr : removeObject st r m = .ok st')
    (h : freeListSorted st.freeObjects) :
    freeListSorted st'.freeObjects := by
  unfold removeObject at hr
  by_cases hin : r ∈ st.objects
  · rw [if_pos hin] at hr
    by_cases hc : r.objectNumber ∈ st.compressedObjectStreams
    · rw [if_pos hc] at hr; cases hr
    · rw [if_neg hc] at hr
      cases m with
      | true =>
        simp only [] at hr
        cases hr
        exact safeAddFreeObject_sorted r h
      | false =>
        simp only [] at hr
        cases hr
        exact h
  · rw [if_neg hin] at hr
    cases hr
    exact h

theorem applyOp_sorted {st st' : StoreState} (op : StoreOp)
    (hap : applyOp st op = .ok st')
    (h : freeListSorted st.freeObjects) :
    freeListSorted st'.freeObjects := by
  cases op with
  | create => exact createObject_sorted hap h
  | remove r m => exact removeObject_sorted hap h
  | addFree r =>
    simp only [applyOp] at hap
    cases hap
    exact addFreeObject_sorted r h
  | tryAddFree o g =>
    simp only [applyOp] at hap
    cases hap
    exact tryAddFreeObject_sorted o g h
  | safeAddFree r =>
    simp only [applyOp] at hap
    cases hap
    exact safeAddFreeObject_sorted r h
  | addCompressed n =>
    simp only [applyOp] at hap
    cases hap
    exact h

theorem stepOp_sorted {st : StoreState} (op : StoreOp)
    (h : freeListSorted st.freeObjects) :
    freeListSorted (stepOp st op).freeObjects := by
  unfold stepOp
  cases hap : applyOp st op with
  | ok st' => exact applyOp_sorted op hap h
  | error e => exact h

theorem runOps_sorted (ops : List StoreOp) :
    ∀ st : StoreState, freeListSorted st.freeObjects →
      freeListSorted (runOps st ops).freeObjects := by
  induction ops with
  | nil => intro st h; exact h
  | cons op rest ih =>
    intro st h
    exact ih (stepOp st op) (stepOp_sorted op h)

/-- C5: under any sequence of store operations the free list stays
strictly sorted ascending by reference, hence duplicate free, and
AddFreeObject called on a reference already contained in the free list
leaves the store unchanged. -/
theorem freeList_monotone :
    (∀ (ops : List StoreOp) (st : StoreState), freeListSorted st.freeObjects →
        freeListSorted (runOps st ops).freeObjects)
    ∧ (∀ (st : StoreState) (r : PdfReference), r ∈ st.freeObjects →
        addFreeObject st r = st) := by
  constructor
  · intro ops st h
    exact runOps_sorted ops st h
  · intro st r h
    unfold addFreeObject
    rw [if_pos h]

/-- A fresh empty store with the default maximum object count. -/
def emptyStore : StoreState :=
  { objects := [], freeObjects := [], unavailableObjects := [],
    compressedObjectStreams := [], objectCount := 0,
    maxObjectCount := 2147483647, allocated := [] }

/-- Witness for C5: a concrete run of allocations, removals and free-list
insertions keeps the free list sorted, and a duplicate AddFreeObject is a
no-op. -/
theorem freeList_monotone_witness :
    freeListSorted
      (runOps emptyStore
        [.create, .create, .create,
         .remove ⟨2, 0⟩ true, .addFree ⟨7, 3⟩, .safeAddFree ⟨1, 0⟩,
         .create, .remove ⟨3, 0⟩ true]).freeObjects
    ∧ addFreeObject
        { emptyStore with freeObjects := [⟨2, 1⟩, ⟨5, 0⟩] } ⟨5, 0⟩
      = { emptyStore with freeObjects := [⟨2, 1⟩, ⟨5, 0⟩] } :=
  ⟨freeList_monotone.1
      [.create, .create, .create,
       .remove ⟨2, 0⟩ true, .addFree ⟨7, 3⟩, .safeAddFree ⟨1, 0⟩,
       .create, .remove ⟨3, 0⟩ true] emptyStore (by decide),
   freeList_monotone.2
      { emptyStore with freeObjects := [⟨2, 1⟩, ⟨5, 0⟩] } ⟨5, 0⟩ (by decide)⟩

/-- C1: the claim states that an object number whose generation reached
65535 lands in the unavailable set and is never allocated again. The code
instead inserts the generation value into m_unavailableObjects in
tryAddFreeObject, so the object number 5 is not in the set and the
allocator returns reference (5, 0) on the fifth allocation after the
generation of object 5 reached 65535. -/
theorem generation_cap_ineffective :
    (runOps emptyStore
        [.tryAddFree 5 65535, .create, .create, .create, .create, .create]).allocated
      = [⟨1, 0⟩, ⟨2, 0⟩, ⟨3, 0⟩, ⟨4, 0⟩, ⟨5, 0⟩]
    ∧ (runOps emptyStore
        [.tryAddFree 5 65535, .create, .create, .create, .create, .create]).unavailableObjects
      = [65535]
    ∧ 5 ∉ (runOps emptyStore
        [.tryAddFree 5 65535, .create, .create, .create, .create, .create]).unavailableObjects := by
  refine ⟨by decide, by decide, by decide⟩

/-- A store holding object (7, 65534), used to exercise removal at the
generation cap. -/
def storeWithGen65534 : StoreState :=
  { objects := [⟨7, 65534⟩], freeObjects := [], unavailableObjects := [],
    compressedObjectStreams := [], objectCount := 7,
    maxObjectCount := 2147483647, allocated := [] }

/-- A store whose object (9, 3) is registered as a compressed object
stream container. -/
def storeWithCompressed : StoreState :=
  { objects := [⟨9, 3⟩], freeObjects := [], unavailableObjects := [],
    compressedObjectStreams := [9], objectCount := 9,
    maxObjectCount := 2147483647, allocated := [] }

/-- C6: removing a compressed object stream container raises InternalLogic
as the claim states, but removing (7, 65534) with markAsFree puts the
incremented generation 65535 into the unavailable set instead of the
object number 7, diverging from the claim. -/
theorem removeObject_generation_cap :
    removeObject storeWithCompressed ⟨9, 3⟩ true
      = .error ⟨.internalLogic, "Cant remove a compressed object stream"⟩
    ∧ removeObject storeWithGen65534 ⟨7, 65534⟩ true
      = .ok { storeWithGen65534 with objects := [], unavailableObjects := [65535] }
    ∧ 7 ∉ (insertNatSet 65535 ([] : List Nat))
    ∧ (removeObject storeWithGen65534 ⟨7, 65534⟩ true).toOption.map
        StoreState.freeObjects = some [] := by
  refine ⟨by decide, by decide, by decide, by decide⟩

/-! ## Classical xref subsection records (PdfParser::ReadXRefSubsection) -/

/-- PdfXRefEntryType. -/
inductive PdfXRefEntryType where
  | unknown
  | free
  | inUse
  | compressed
  deriving DecidableEq

/-- One slot of the xref entry table (PdfXRefEntry); default construction
leaves everything zeroed and unparsed. -/
structure XRefEntry where
  objectNumber : Nat
  offset : Nat
  generation : Nat
  type : PdfXRefEntryType
  parsed : Bool
  deriving DecidableEq

instance : Inhabited XRefEntry :=
  ⟨{ objectNumber := 0, offset := 0, generation := 0,
     type := .unknown, parsed := false }⟩

/-- PdfXRefEntries::Enlarge - extends the table without ever shrinking. -/
def enlargeEntries (es : List XRefEntry) (n : Nat) : List XRefEntry :=
  if es.length < n then es ++ List.replicate (n - es.length) default else es

/-- CheckEOL from the PdfParser translation unit. -/
def checkEOL (e1 e2 : Char) : Bool :=
  (e1 = '\r' && e2 = '\n') || (e1 = '\n' && e2 = '\r') ||
    (e1 = ' ' && (e2 = '\r' || e2 = '\n'))

/-- CheckXRefEntryType. -/
def checkXRefEntryType (c : Char) : Bool :=
  c = 'n' || c = 'f'

/-- XRefEntryTypeFromChar. -/
def xrefEntryTypeFromChar (c : Char) : PdfXRefEntryType :=
  if c = 'n' then .inUse else if c = 'f' then .free else .unknown

/-- The whitespace class skipped by the C sscanf conversions. -/
def isSpaceC (c : Char) : Bool :=
  c = ' ' || c = '\t' || c = '\n' || (c.toNat = 11) || (c.toNat = 12) || c = '\r'

def dropWs : List Char → List Char
  | [] => []
  | c :: l => if isSpaceC c then dropWs l else c :: l

/-- Consume up to the field-width many leading digits, accumulating the
decimal value; stops at the first non digit. -/
def takeDigits : Nat → Nat → List Char → Nat × List Char
  | 0, acc, l => (acc, l)
  | _ + 1, acc, [] => (acc, [])
  | m + 1, acc, c :: l =>
    if c.isDigit then takeDigits m (acc * 10 + (c.toNat - 48)) l else (acc, c :: l)

/-- One unsigned conversion: fails (matching failure) when the first
character is not a digit. -/
def splitDigits (maxWidth : Nat) (l : List Char) : Option (Nat × List Char) :=
  match l with
  | [] => none
  | c :: _ => if c.isDigit then some (takeDigits maxWidth 0 l) else none

/-- Result of the sscanf conversion over one 20-byte record. -/
structure ScanOut where
  read : Nat
  variant : Nat
  generation : Nat
  chType : Char
  empty1 : Char
  empty2 : Char
  deriving DecidableEq

/-- Character conversions of the sscanf call: the three trailing raw
character reads, starting from the remainder after the second number. -/
def scanChars (variant generation : Nat) : List Char → ScanOut
  | [] => ⟨2, variant, generation, Char.ofNat 0, Char.ofNat 0, Char.ofNat 0⟩
  | c :: [] => ⟨3, variant, generation, c, Char.ofNat 0, Char.ofNat 0⟩
  | c :: d :: [] => ⟨4, variant, generation, c, d, Char.ofNat 0⟩
  | c :: d :: e :: _ => ⟨5, variant, generation, c, d, e⟩

/-- Continuation of the scan after the first number was converted. -/
def scanAfterFirst (variant : Nat) : Option (Nat × List Char) → ScanOut
  | none => ⟨1, variant, 0, Char.ofNat 0, Char.ofNat 0, Char.ofNat 0⟩
  | some (generation, l4) => scanChars variant generation (dropWs l4)

/-- Dispatch on the first number conversion result. -/
def scanFirst : Option (Nat × List Char) → ScanOut
  | none => ⟨0, 0, 0, Char.ofNat 0, Char.ofNat 0, Char.ofNat 0⟩
  | some (variant, l2) => scanAfterFirst variant (splitDigits 5 (dropWs l2))

/-- The sscanf call of ReadXRefSubsection over one record buffer, for the
conversion sequence of one 10-digit unsigned, whitespace, one 5-digit
unsigned, whitespace, then three raw characters. Variables left
unassigned keep the zero initialisation of the C code. -/
def scanXRef (l : List Char) : ScanOut :=
  scanFirst (splitDigits 10 (dropWs l))

/-- PTRDIFF_MAX on the 64-bit targets the parser supports. -/
def ptrdiffMax : Nat := 9223372036854775807

/-- The per-record body of ReadXRefSubsection once a slot is writable:
scan the buffer, validate the type character and the end-of-line pair,
then fill the slot. -/
def readXRefRecord (entry : XRefEntry) (magicOffset : Nat) (buffer : List Char) :
    Except PdfError XRefEntry :=
  let s := scanXRef buffer
  if checkXRefEntryType s.chType = false then
    .error ⟨.invalidXRef, "Invalid used keyword, must be either n or f"⟩
  else
    let type := xrefEntryTypeFromChar s.chType
    if s.read ≠ 5 ∨ checkEOL s.empty1 s.empty2 = false then
      .error ⟨.invalidXRef, ""⟩
    else
      match type with
      | .free =>
        .ok { entry with objectNumber := s.variant, generation := s.generation,
                         type := .free, parsed := true }
      | .inUse =>
        let variant := s.variant + magicOffset
        if variant > ptrdiffMax then
          .error ⟨.valueOutOfRange, ""⟩
        else
          .ok { entry with offset := variant, generation := s.generation,
                           type := .inUse, parsed := true }
      | _ => .error ⟨.internalLogic, "unreachable entry type"⟩

/-- Processing one record of a classical xref subsection against the
entry table: the slot is written only when it is in range and not yet
parsed, otherwise the record is skipped entirely. -/
def processXRefRecord (entries : List XRefEntry) (objIndex magicOffset : Nat)
    (buffer : List Char) : Except PdfError (List XRefEntry) :=
  if objIndex < entries.length ∧ (entries.getD objIndex default).parsed = false then
    match readXRefRecord (entries.getD objIndex default) magicOffset buffer with
    | .ok e => .ok (entries.set objIndex e)
    | .error err => .error err
  else
    .ok entries

/-- Error code of an Except result, none when it succeeded. -/
def exceptErrCode {α : Type} : Except PdfError α → Option PdfErrorCode
  | .ok _ => none
  | .error e => some e.code

/-- C4: a record aimed at a slot whose Parsed flag is already set changes
nothing at all, and in every successful case slots of other object
numbers are untouched. -/
theorem xref_slot_earliest_writer_wins (entries : List XRefEntry)
    (i magic : Nat) (buf : List Char) :
    ((entries.getD i default).parsed = true →
        processXRefRecord entries i magic buf = .ok entries)
    ∧ (∀ es', processXRefRecord entries i magic buf = .ok es' →
        ∀ j, j ≠ i → es'[j]? = entries[j]?) := by
  constructor
  · intro h
    unfold processXRefRecord
    rw [if_neg]
    intro hc
    rw [h] at hc
    cases hc.2
  · intro es' hp j hj
    unfold processXRefRecord at hp
    by_cases hc : i < entries.length ∧ (entries.getD i default).parsed = false
    · rw [if_pos hc] at hp
      cases hr : readXRefRecord (entries.getD i default) magic buf with
      | ok e =>
        rw [hr] at hp
        cases hp
        exact List.getElem?_set_ne (fun h => hj h.symm)
      | error err => rw [hr] at hp; cases hp
    · rw [if_neg hc] at hp
      cases hp
      rfl

/-- A parsed slot recording an in-use object at offset 42. -/
def parsedSlot : XRefEntry :=
  { objectNumber := 0, offset := 42, generation := 0, type := .inUse, parsed := true }

/-- Witness for C4: a record for object number 1 whose slot is already
parsed leaves the whole table unchanged. -/
theorem xref_slot_earliest_writer_wins_witness :
    processXRefRecord [default, parsedSlot] 1 0
        (String.toList ("0000000099 00001 n \r")) = .ok [default, parsedSlot] :=
  (xref_slot_earliest_writer_wins [default, parsedSlot] 1 0
      (String.toList ("0000000099 00001 n \r"))).1 (by decide)

/-- Left-padded fixed-width decimal digit expansion, most significant
digit first. -/
def padDigits : Nat → Nat → List Char
  | 0, _ => []
  | k + 1, n => Char.ofNat (48 + n / 10 ^ k) :: padDigits k (n % 10 ^ k)

/-- A 20-byte classical xref record of the shape the claim talks about:
ten digits, space, five digits, space, a type character and two
end-of-line characters. -/
def mkXRefRecord (n g : Nat) (t e1 e2 : Char) : List Char :=
  padDigits 10 n ++ (' ' :: (padDigits 5 g ++ (' ' :: (t :: (e1 :: (e2 :: [])))))) 

theorem ofNat_digit_isDigit {d : Nat} (h : d < 10) :
    (Char.ofNat (48 + d)).isDigit = true := by
  interval_cases d <;> decide

theorem ofNat_digit_not_space {d : Nat} (h : d < 10) :
    isSpaceC (Char.ofNat (48 + d)) = false := by
  interval_cases d <;> decide

theorem ofNat_digit_toNat {d : Nat} (h : d < 10) :
    (Char.ofNat (48 + d)).toNat = 48 + d := by
  interval_cases d <;> decide

theorem div_pow_lt_ten {n k : Nat} (h : n < 10 ^ (k + 1)) : n / 10 ^ k < 10 := by
  have hpos : 0 < 10 ^ k := Nat.pos_pow_of_pos k (by omega)
  rw [Nat.div_lt_iff_lt_mul hpos]
  rw [Nat.pow_succ] at h
  omega

theorem takeDigits_padDigits (k : Nat) :
    ∀ (n acc : Nat) (rest : List Char), n < 10 ^ k →
      takeDigits k acc (padDigits k n ++ rest) = (acc * 10 ^ k + n, rest) := by
  induction k with
  | zero =>
    intro n acc rest h
    have hn : n = 0 := by simpa using h
    subst hn
    simp [padDigits, takeDigits]
  | succ k ih =>
    intro n acc rest h
    have hd : n / 10 ^ k < 10 := div_pow_lt_ten h
    show takeDigits (k + 1) acc
        (Char.ofNat (48 + n / 10 ^ k) :: (padDigits k (n % 10 ^ k) ++ rest)) = _
    unfold takeDigits
    rw [ofNat_digit_isDigit hd, if_pos rfl, ofNat_digit_toNat hd]
    have hsub : 48 + n / 10 ^ k - 48 = n / 10 ^ k := by simp
    rw [hsub]
    rw [ih (n % 10 ^ k) (acc * 10 + n / 10 ^ k) rest
        (Nat.mod_lt _ (Nat.pos_pow_of_pos k (by omega)))]
    have harith : (acc * 10 + n / 10 ^ k) * 10 ^ k + n % 10 ^ k
        = acc * 10 ^ (k + 1) + n := by
      calc (acc * 10 + n / 10 ^ k) * 10 ^ k + n % 10 ^ k
          = acc * (10 ^ k * 10) + (10 ^ k * (n / 10 ^ k) + n % 10 ^ k) := by ring
        _ = acc * 10 ^ (k + 1) + n := by rw [Nat.div_add_mod, Nat.pow_succ]
    rw [harith]

theorem splitDigits_padDigits (k n : Nat) (rest : List Char)
    (hk : 0 < k) (h : n < 10 ^ k) :
    splitDigits k (padDigits k n ++ rest) = some (n, rest) := by
  cases k with
  | zero => omega
  | succ k =>
    have hd : n / 10 ^ k < 10 := div_pow_lt_ten h
    have hcons : padDigits (k + 1) n ++ rest
        = Char.ofNat (48 + n / 10 ^ k) :: (padDigits k (n % 10 ^ k) ++ rest) := rfl
    rw [hcons]
    show (if (Char.ofNat (48 + n / 10 ^ k)).isDigit = true
        then some (takeDigits (k + 1) 0
          (Char.ofNat (48 + n / 10 ^ k) :: (padDigits k (n % 10 ^ k) ++ rest)))
        else none) = some (n, rest)
    rw [ofNat_digit_isDigit hd, if_pos rfl]
    rw [← hcons]
    rw [takeDigits_padDigits (k + 1) n 0 rest h]
    simp

theorem dropWs_cons (c : Char) (l : List Char) :
    dropWs (c :: l) = if isSpaceC c = true then dropWs l else c :: l := rfl

theorem dropWs_not_space {c : Char} (l : List Char) (h : isSpaceC c = false) :
    dropWs (c :: l) = c :: l := by
  rw [dropWs_cons, h]
  simp

theorem dropWs_space {c : Char} (l : List Char) (h : isSpaceC c = true) :
    dropWs (c :: l) = dropWs l := by
  rw [dropWs_cons, h]
  simp

theorem dropWs_padDigits (k n : Nat) (rest : List Char) (h : n < 10 ^ (k + 1)) :
    dropWs (padDigits (k + 1) n ++ rest) = padDigits (k + 1) n ++ rest := by
  have hd : n / 10 ^ k < 10 := div_pow_lt_ten h
  have hcons : padDigits (k + 1) n ++ rest
      = Char.ofNat (48 + n / 10 ^ k) :: (padDigits k (n % 10 ^ k) ++ rest) := rfl
  rw [hcons, dropWs_not_space _ (ofNat_digit_not_space hd)]

/-- The sscanf scan of a well-shaped record whose type character is not
whitespace: every field is read and the trailing three characters land in
the character conversions. -/
theorem scanXRef_mkXRefRecord (n g : Nat) (t e1 e2 : Char)
    (hn : n < 10 ^ 10) (hg : g < 10 ^ 5) (ht : isSpaceC t = false) :
    scanXRef (mkXRefRecord n g t e1 e2) = ⟨5, n, g, t, e1, e2⟩ := by
  unfold mkXRefRecord scanXRef
  rw [dropWs_padDigits 9 n _ hn]
  rw [splitDigits_padDigits 10 n _ (by omega) hn]
  simp only [scanFirst]
  rw [dropWs_space _ (by decide)]
  rw [dropWs_padDigits 4 g _ hg]
  rw [splitDigits_padDigits 5 g _ (by omega) hg]
  simp only [scanAfterFirst]
  rw [dropWs_space _ (by decide)]
  rw [dropWs_not_space _ ht]
  simp only [scanChars]

/-- When the type character position holds whitespace, the whitespace
skip before the character conversions swallows it and the conversion
count cannot reach 5. -/
theorem scanXRef_ws_read (n g : Nat) (t e1 e2 : Char)
    (hn : n < 10 ^ 10) (hg : g < 10 ^ 5) (ht : isSpaceC t = true) :
    (scanXRef (mkXRefRecord n g t e1 e2)).read ≠ 5 := by
  unfold mkXRefRecord scanXRef
  rw [dropWs_padDigits 9 n _ hn]
  rw [splitDigits_padDigits 10 n _ (by omega) hn]
  simp only [scanFirst]
  rw [dropWs_space _ (by decide)]
  rw [dropWs_padDigits 4 g _ hg]
  rw [splitDigits_padDigits 5 g _ (by omega) hg]
  simp only [scanAfterFirst]
  rw [dropWs_space _ (by decide), dropWs_space _ ht]
  by_cases h1 : isSpaceC e1 = true
  · rw [dropWs_space _ h1]
    by_cases h2 : isSpaceC e2 = true
    · rw [dropWs_space _ h2]
      simp [dropWs, scanChars]
    · rw [dropWs_not_space _ (by simpa using h2)]
      simp [scanChars]
  · rw [dropWs_not_space _ (by simpa using h1)]
    simp [scanChars]

/-- C9 counterexample: the record 0000000003 00002 n with the two byte
end-of-line sequence line feed carriage return is accepted and yields an
in-use entry, although the claim lists only carriage return line feed,
space carriage return and space line feed as accepted pairs. -/
theorem xref_eol_nl_cr_accepted :
    (('\n', '\r') ≠ ('\r', '\n') ∧ ('\n', '\r') ≠ (' ', '\r') ∧ ('\n', '\r') ≠ (' ', '\n'))
    ∧ readXRefRecord default 0 (mkXRefRecord 3 2 ('n') ('\n') ('\r'))
      = .ok { objectNumber := 0, offset := 3, generation := 2,
              type := .inUse, parsed := true } := by
  refine ⟨by decide, by decide⟩

/-- C9 amended: a 20-byte record of shape NNNNNNNNNN GGGGG T EE is
accepted exactly when T is n or f and the end-of-line pair passes
CheckEOL, which admits the four pairs carriage return line feed, line
feed carriage return, space carriage return and space line feed; an
accepted n record stores the ten digit number plus the magic offset and
the generation, an accepted f record stores the next-free object number
and the generation; every other type character or end-of-line pair
raises InvalidXRef. -/
theorem xref_record_format (n g magic : Nat) (t e1 e2 : Char) (entry : XRefEntry)
    (hn : n < 10 ^ 10) (hg : g < 10 ^ 5) (hmagic : n + magic ≤ ptrdiffMax) :
    (t = 'n' → checkEOL e1 e2 = true →
        readXRefRecord entry magic (mkXRefRecord n g t e1 e2)
          = .ok { entry with offset := n + magic, generation := g,
                             type := .inUse, parsed := true })
    ∧ (t = 'f' → checkEOL e1 e2 = true →
        readXRefRecord entry magic (mkXRefRecord n g t e1 e2)
          = .ok { entry with objectNumber := n, generation := g,
                             type := .free, parsed := true })
    ∧ (checkEOL e1 e2 = true ↔
        ((e1 = '\r' ∧ e2 = '\n') ∨ (e1 = '\n' ∧ e2 = '\r') ∨
         (e1 = ' ' ∧ e2 = '\r') ∨ (e1 = ' ' ∧ e2 = '\n')))
    ∧ ((¬t = 'n' ∧ ¬t = 'f') ∨ checkEOL e1 e2 = false →
        exceptErrCode (readXRefRecord entry magic (mkXRefRecord n g t e1 e2))
          = some .invalidXRef) := by
  refine ⟨?_, ?_, ?_, ?_⟩
  · intro hT heol
    subst hT
    unfold readXRefRecord
    rw [scanXRef_mkXRefRecord n g ('n') e1 e2 hn hg (by decide)]
    simp [checkXRefEntryType, xrefEntryTypeFromChar, heol, Nat.not_lt.mpr hmagic]
  · intro hT heol
    subst hT
    unfold readXRefRecord
    rw [scanXRef_mkXRefRecord n g ('f') e1 e2 hn hg (by decide)]
    simp [checkXRefEntryType, xrefEntryTypeFromChar, heol]
  · unfold checkEOL
    constructor
    · intro h
      rcases Bool.or_eq_true_iff.mp h with h | h
      · rcases Bool.or_eq_true_iff.mp h with h | h
        · left
          exact ⟨by simpa using (Bool.and_eq_true_iff.mp h).1,
                 by simpa using (Bool.and_eq_true_iff.mp h).2⟩
        · right; left
          exact ⟨by simpa using (Bool.and_eq_true_iff.mp h).1,
                 by simpa using (Bool.and_eq_true_iff.mp h).2⟩
      · have h1 := (Bool.and_eq_true_iff.mp h).1
        have h2 := (Bool.and_eq_true_iff.mp h).2
        rcases Bool.or_eq_true_iff.mp h2 with h3 | h3
        · right; right; left
          exact ⟨by simpa using h1, by simpa using h3⟩
        · right; right; right
          exact ⟨by simpa using h1, by simpa using h3⟩
    · intro h
      rcases h with ⟨h1, h2⟩ | ⟨h1, h2⟩ | ⟨h1, h2⟩ | ⟨h1, h2⟩ <;>
        subst h1 <;> subst h2 <;> decide
  · intro hbad
    by_cases hws : isSpaceC t = true
    · have hread := scanXRef_ws_read n g t e1 e2 hn hg hws
      unfold readXRefRecord
      by_cases hT : checkXRefEntryType (scanXRef (mkXRefRecord n g t e1 e2)).chType = false
      · rw [if_pos hT]
        rfl
      · rw [if_neg hT, if_pos (Or.inl hread)]
        rfl
    · have hws' : isSpaceC t = false := by simpa using hws
      unfold readXRefRecord
      rw [scanXRef_mkXRefRecord n g t e1 e2 hn hg hws']
      rcases hbad with ⟨hn', hf'⟩ | heol
      · rw [if_pos]
        · rfl
        · simp [checkXRefEntryType, hn', hf']
      · by_cases hT : checkXRefEntryType (ScanOut.mk 5 n g t e1 e2).chType = false
        · rw [if_pos hT]
          rfl
        · rw [if_neg hT, if_pos (Or.inr heol)]
          rfl

/-- Witness for C9 amended at a concrete free record with the space
carriage return end-of-line pair. -/
theorem xref_record_format_witness :
    readXRefRecord default 0 (mkXRefRecord 7 1 ('f') (' ') ('\r'))
      = .ok { (default : XRefEntry) with objectNumber := 7, generation := 1,
                                         type := .free, parsed := true } :=
  (xref_record_format 7 1 0 ('f') (' ') ('\r') default
      (by decide) (by decide) (by decide)).2.1 rfl (by decide)

/-! ## The xref walk: ReadXRefContents, readNextTrailer,
ReadXRefStreamContents, with the visited-offset cycle guard. -/

/-- A cross reference section found at some byte offset: either a
classical xref table followed by its trailer dictionary, or an xref
stream object with its dictionary. -/
inductive XRefSection where
  | classical (trailerDict : Dict)
  | stream (dict : Dict)
  deriving DecidableEq

/-- The input file abstracted to the xref walk granularity: which kind of
section sits at which byte offset. -/
abbrev XRefFile := Nat → Option XRefSection

/-- Ghost record of one Prev handling site: the classical trailer branch
of readNextTrailer or the stream branch of ReadXRefStreamContents. -/
inductive PrevEvent where
  | classicalTrailer (prev : Option Int) (visitedAtTime : Bool) (skip : Bool)
  | streamObj (prev : Option Nat) (selfOffset : Nat) (skip : Bool)
  deriving DecidableEq

/-- The condition under which the corresponding site increments
m_IncrementalUpdateCount. -/
def PrevEvent.qualifies : PrevEvent → Bool
  | .classicalTrailer (some v) _ _ => decide (0 < v)
  | .classicalTrailer none _ _ => false
  | .streamObj (some p) selfOffset _ => decide (p ≠ selfOffset)
  | .streamObj none _ _ => false

/-- The PdfParser member state relevant to the xref walk, with the fields
reset() touches, the visited-offset set, and three ghost traces: the
classical sections read, the xref stream objects read, and the Prev
handling events. -/
structure ParserState where
  pdfVersion : Nat
  loadOnDemand : Bool
  magicOffset : Nat
  hasXRefStream : Bool
  xrefOffset : Nat
  lastEOFOffset : Nat
  trailer : Option Dict
  entries : List XRefEntry
  encrypt : Bool
  ignoreBrokenObjects : Bool
  incrementalUpdateCount : Nat
  visitedXRefOffsets : List Nat
  readsTable : List Nat
  readsStream : List Nat
  evs : List PrevEvent
  deriving DecidableEq

def pdfVersionDefault : Nat := 14

/-- PdfParser::reset - note that the source resets exactly these fields;
m_visitedXRefOffsets is left untouched. The ghost traces are kept as
run-global histories. -/
def resetParser (st : ParserState) : ParserState :=
  { st with pdfVersion := pdfVersionDefault, loadOnDemand := false,
            magicOffset := 0, hasXRefStream := false, xrefOffset := 0,
            lastEOFOffset := 0, trailer := none, entries := [],
            encrypt := false, ignoreBrokenObjects := true,
            incrementalUpdateCount := 0 }

/-- FindKey of a trailer key followed by TryGetNumber. -/
def lookupNum (d : Dict) (k : String) : Option Int :=
  match dictLookup d k with
  | some (.int i) => some i
  | _ => none

/-- Modelled from the spec: PdfXRefStreamParserObject (not under src/)
records the optional Prev entry of the xref stream dictionary and hands
it out through TryGetPreviousOffset. -/
def tryGetPreviousOffset (d : Dict) : Option Nat :=
  match lookupNum d ("Prev") with
  | some i => some i.toNat
  | none => none

/-- Outcome of a walk step: the C++ member state survives a throw, so
both constructors carry the state. -/
inductive XRefResult where
  | ok (st : ParserState)
  | err (e : PdfError) (st : ParserState)
  deriving DecidableEq

def XRefResult.resState : XRefResult → ParserState
  | .ok st => st
  | .err _ st => st

def XRefResult.errCode : XRefResult → Option PdfErrorCode
  | .ok _ => none
  | .err e _ => some e.code

def XRefResult.isOk : XRefResult → Bool
  | .ok _ => true
  | .err _ _ => false

/-- The three mutually recursive entry points of the walk. -/
inductive WalkCall where
  | contents (offset : Nat) (skipFollowPrevious : Bool)
  | nextTrailer (trailerDict : Dict) (skipFollowPrevious : Bool)
  | streamContents (offset : Nat) (skipFollowPrevious : Bool)
  deriving DecidableEq

/-- Assign m_Trailer on the first trailer, merge later ones. -/
def setTrailer (st : ParserState) (d : Dict) : ParserState :=
  match st.trailer with
  | none => { st with trailer := some d }
  | some t => { st with trailer := some (mergeTrailer t d) }

def cycleError : PdfError :=
  ⟨.invalidXRef, "Cycle in xref structure, offset already visited"⟩

/-- The xref walk. Fuel models the utls::RecursionGuard depth counter:
every nested entry into one of the three functions consumes one unit.
Subsection reading of classical tables and the decoding of stream
entries happen between the bookkeeping steps and do not affect the
walk control flow, so the file is abstracted to parsed sections. -/
def walk (file : XRefFile) : Nat → ParserState → WalkCall → XRefResult
  | 0, st, _ => .err ⟨.recursionLimit, "Reached maximum recursion depth"⟩ st
  | fuel + 1, st, .contents offset skipFollowPrevious =>
    if offset ∈ st.visitedXRefOffsets then
      .err cycleError st
    else
      let st1 := { st with visitedXRefOffsets := offset :: st.visitedXRefOffsets }
      match file offset with
      | none => .err ⟨.invalidXRef, ""⟩ st1
      | some (.classical trailerDict) =>
        let st2 := { st1 with readsTable := offset :: st1.readsTable }
        walk file fuel st2 (.nextTrailer trailerDict skipFollowPrevious)
      | some (.stream _) =>
        match walk file fuel st1 (.streamContents offset skipFollowPrevious) with
        | .ok st2 => .ok { st2 with hasXRefStream := true }
        | r => r
  | fuel + 1, st, .nextTrailer trailerDict skipFollowPrevious =>
    let st1 := setTrailer st trailerDict
    let afterStm :=
      match lookupNum trailerDict ("XRefStm") with
      | some stmOffset =>
        walk file fuel st1 (.streamContents stmOffset.toNat skipFollowPrevious)
      | none => .ok st1
    match afterStm with
    | .err e st2 => .err e st2
    | .ok st2 =>
      match lookupNum trailerDict ("Prev") with
      | some offset =>
        if 0 < offset then
          let visitedNow := decide (offset.toNat ∈ st2.visitedXRefOffsets)
          let st3 := { st2 with
            incrementalUpdateCount := st2.incrementalUpdateCount + 1,
            evs := .classicalTrailer (some offset) visitedNow
                     skipFollowPrevious :: st2.evs }
          if skipFollowPrevious then .ok st3
          else if visitedNow then .ok st3
          else walk file fuel st3 (.contents offset.toNat false)
        else
          .ok { st2 with
            evs := .classicalTrailer (some offset)
                     (decide (offset.toNat ∈ st2.visitedXRefOffsets))
                     skipFollowPrevious :: st2.evs }
      | none =>
        .ok { st2 with
          evs := .classicalTrailer none false skipFollowPrevious :: st2.evs }
  | fuel + 1, st, .streamContents offset skipFollowPrevious =>
    match file offset with
    | some (.stream dict) =>
      let st1 := setTrailer { st with readsStream := offset :: st.readsStream } dict
      match tryGetPreviousOffset dict with
      | some previousOffset =>
        let st2 := { st1 with
          evs := .streamObj (some previousOffset) offset
                   skipFollowPrevious :: st1.evs }
        if previousOffset ≠ offset then
          let st3 := { st2 with
            incrementalUpdateCount := st2.incrementalUpdateCount + 1 }
          if skipFollowPrevious then .ok st3
          else walk file fuel st3 (.contents previousOffset false)
        else .ok st2
      | none =>
        .ok { st1 with
          evs := .streamObj none offset skipFollowPrevious :: st1.evs }
    | _ =>
      .err ⟨.invalidXRef, "The trailer was found in the file but contains errors"⟩ st

/-- PdfParser::ReadXRefContents. -/
def readXRefContents (file : XRefFile) (fuel : Nat) (st : ParserState)
    (offset : Nat) (skipFollowPrevious : Bool) : XRefResult :=
  walk file fuel st (.contents offset skipFollowPrevious)

/-- PdfParser::readNextTrailer. -/
def readNextTrailer (file : XRefFile) (fuel : Nat) (st : ParserState)
    (trailerDict : Dict) (skipFollowPrevious : Bool) : XRefResult :=
  walk file fuel st (.nextTrailer trailerDict skipFollowPrevious)

/-- PdfParser::ReadXRefStreamContents. -/
def readXRefStreamContents (file : XRefFile) (fuel : Nat) (st : ParserState)
    (offset : Nat) (skipFollowPrevious : Bool) : XRefResult :=
  walk file fuel st (.streamContents offset skipFollowPrevious)

/-- Recursion depth limit of the walk. -/
def maxRecursionDepth : Nat := 500

/-- PdfParser::Parse: reset, run the body, and on failure keep the state
for InvalidPassword but reset it for every other error before the error
propagates. The work after the xref walk, chiefly ReadObjects with its
password authentication, is abstracted as readObjectsStep. -/
def parsePdf (file : XRefFile) (startXRefOffset : Nat)
    (readObjectsStep : ParserState → XRefResult) (st : ParserState) : XRefResult :=
  let st0 := resetParser st
  let body :=
    match walk file maxRecursionDepth st0 (.contents startXRefOffset false) with
    | .ok st1 => readObjectsStep st1
    | r => r
  match body with
  | .ok st1 => .ok st1
  | .err e st1 =>
    if e.code = .invalidPassword then .err e st1
    else .err e (resetParser st1)

theorem setTrailer_evs (st : ParserState) (d : Dict) :
    (setTrailer st d).evs = st.evs := by
  unfold setTrailer
  cases st.trailer <;> rfl

theorem setTrailer_count (st : ParserState) (d : Dict) :
    (setTrailer st d).incrementalUpdateCount = st.incrementalUpdateCount := by
  unfold setTrailer
  cases st.trailer <;> rfl

theorem setTrailer_visited (st : ParserState) (d : Dict) :
    (setTrailer st d).visitedXRefOffsets = st.visitedXRefOffsets := by
  unfold setTrailer
  cases st.trailer <;> rfl

theorem setTrailer_readsTable (st : ParserState) (d : Dict) :
    (setTrailer st d).readsTable = st.readsTable := by
  unfold setTrailer
  cases st.trailer <;> rfl

/-- Aggregate accounting of the walk: the ghost Prev events grow by a
prefix, and the incremental update counter grows by exactly the number of
new events whose site-specific increment condition holds. -/
theorem walk_evs (file : XRefFile) :
    ∀ (fuel : Nat) (st : ParserState) (call : WalkCall),
      ∃ new : List PrevEvent,
        (walk file fuel st call).resState.evs = new ++ st.evs ∧
        (walk file fuel st call).resState.incrementalUpdateCount
          = st.incrementalUpdateCount + (new.filter PrevEvent.qualifies).length := by
  intro fuel
  induction fuel with
  | zero =>
    intro st call
    exact ⟨[], by simp [walk, XRefResult.resState], by simp [walk, XRefResult.resState]⟩
  | succ fuel ih =>
    intro st call
    cases call with
    | contents offset skip =>
      simp only [walk]
      by_cases hv : offset ∈ st.visitedXRefOffsets
      · rw [if_pos hv]
        exact ⟨[], rfl, by simp [XRefResult.resState]⟩
      · rw [if_neg hv]
        cases hf : file offset with
        | none =>
          exact ⟨[], by simp [XRefResult.resState], by simp [XRefResult.resState]⟩
        | some sec =>
          cases sec with
          | classical d =>
            simp only []
            obtain ⟨new, h1, h2⟩ := ih
              { st with visitedXRefOffsets := offset :: st.visitedXRefOffsets,
                        readsTable := offset ::
                          ({ st with visitedXRefOffsets :=
                              offset :: st.visitedXRefOffsets } : ParserState).readsTable }
              (.nextTrailer d skip)
            exact ⟨new, h1, h2⟩
          | stream d =>
            simp only []
            obtain ⟨new, h1, h2⟩ := ih
              { st with visitedXRefOffsets := offset :: st.visitedXRefOffsets }
              (.streamContents offset skip)
            cases hr : walk file fuel
                { st with visitedXRefOffsets := offset :: st.visitedXRefOffsets }
                (.streamContents offset skip) with
            | ok st2 =>
              rw [hr] at h1 h2
              exact ⟨new, h1, h2⟩
            | err e st2 =>
              rw [hr] at h1 h2
              exact ⟨new, h1, h2⟩
    | nextTrailer d skip =>
      simp only [walk]
      cases hstm : lookupNum d ("XRefStm") with
      | some so =>
        simp only []
        obtain ⟨new1, h11, h12⟩ := ih (setTrailer st d) (.streamContents so.toNat skip)
        cases hr : walk file fuel (setTrailer st d) (.streamContents so.toNat skip) with
        | err e st2 =>
          rw [hr] at h11 h12
          simp only [XRefResult.resState] at h11 h12 ⊢
          rw [setTrailer_evs] at h11
          rw [setTrailer_count] at h12
          exact ⟨new1, h11, h12⟩
        | ok st2 =>
          rw [hr] at h11 h12
          simp only [XRefResult.resState] at h11 h12
          rw [setTrailer_evs] at h11
          rw [setTrailer_count] at h12
          cases hprev : lookupNum d ("Prev") with
          | none =>
            simp only []
            refine ⟨.classicalTrailer none false skip :: new1, ?_, ?_⟩
            · simp only [XRefResult.resState]
              rw [h11]
              rfl
            · simp only [XRefResult.resState, List.filter_cons]
              have : PrevEvent.qualifies (.classicalTrailer none false skip) = false := rfl
              rw [this]
              simpa using h12
          | some off =>
            simp only []
            by_cases hpos : 0 < off
            · rw [if_pos hpos]
              have hqual : PrevEvent.qualifies
                  (.classicalTrailer (some off)
                    (decide (off.toNat ∈ st2.visitedXRefOffsets)) skip) = true := by
                simp [PrevEvent.qualifies, hpos]
              by_cases hskip : skip
              · rw [if_pos hskip]
                refine ⟨.classicalTrailer (some off)
                    (decide (off.toNat ∈ st2.visitedXRefOffsets)) skip :: new1, ?_, ?_⟩
                · simp only [XRefResult.resState]
                  rw [h11]
                  rfl
                · simp [XRefResult.resState, List.filter_cons, hqual]
                  omega
              · rw [if_neg hskip]
                by_cases hvis : (decide (off.toNat ∈ st2.visitedXRefOffsets)) = true
                · rw [if_pos hvis]
                  refine ⟨.classicalTrailer (some off)
                      (decide (off.toNat ∈ st2.visitedXRefOffsets)) skip :: new1, ?_, ?_⟩
                  · simp only [XRefResult.resState]
                    rw [h11]
                    rfl
                  · simp [XRefResult.resState, List.filter_cons, hqual]
                    omega
                · rw [if_neg hvis]
                  obtain ⟨new2, h21, h22⟩ := ih
                    { st2 with
                      incrementalUpdateCount := st2.incrementalUpdateCount + 1,
                      evs := .classicalTrailer (some off)
                               (decide (off.toNat ∈ st2.visitedXRefOffsets)) skip :: st2.evs }
                    (.contents off.toNat false)
                  refine ⟨new2 ++ (.classicalTrailer (some off)
                      (decide (off.toNat ∈ st2.visitedXRefOffsets)) skip :: new1), ?_, ?_⟩
                  · rw [h21]
                    simp only [List.append_assoc, List.cons_append]
                    rw [h11]
                  · rw [h22]
                    simp [List.filter_append, List.filter_cons, hqual]
                    omega
            · rw [if_neg hpos]
              have hqual : PrevEvent.qualifies
                  (.classicalTrailer (some off)
                    (decide (off.toNat ∈ st2.visitedXRefOffsets)) skip) = false := by
                simp [PrevEvent.qualifies]
                omega
              refine ⟨.classicalTrailer (some off)
                  (decide (off.toNat ∈ st2.visitedXRefOffsets)) skip :: new1, ?_, ?_⟩
              · simp only [XRefResult.resState]
                rw [h11]
                rfl
              · simp only [XRefResult.resState, List.filter_cons, hqual]
                simpa using h12
      | none =>
        simp only []
        cases hprev : lookupNum d ("Prev") with
        | none =>
          simp only []
          refine ⟨.classicalTrailer none false skip :: [], ?_, ?_⟩
          · simp only [XRefResult.resState]
            rw [setTrailer_evs]
            rfl
          · simp only [XRefResult.resState]
            rw [setTrailer_count]
            rfl
        | some off =>
          simp only []
          by_cases hpos : 0 < off
          · rw [if_pos hpos]
            have hqual : PrevEvent.qualifies
                (.classicalTrailer (some off)
                  (decide (off.toNat ∈ (setTrailer st d).visitedXRefOffsets)) skip) = true := by
              simp [PrevEvent.qualifies, hpos]
            by_cases hskip : skip
            · rw [if_pos hskip]
              refine ⟨.classicalTrailer (some off)
                  (decide (off.toNat ∈ (setTrailer st d).visitedXRefOffsets)) skip :: [], ?_, ?_⟩
              · simp only [XRefResult.resState]
                rw [setTrailer_evs]
                rfl
              · simp only [XRefResult.resState, List.filter_cons, hqual]
                rw [setTrailer_count]
                rfl
            · rw [if_neg hskip]
              by_cases hvis : (decide (off.toNat ∈ (setTrailer st d).visitedXRefOffsets)) = true
              · rw [if_pos hvis]
                refine ⟨.classicalTrailer (some off)
                    (decide (off.toNat ∈ (setTrailer st d).visitedXRefOffsets)) skip :: [], ?_, ?_⟩
                · simp only [XRefResult.resState]
                  rw [setTrailer_evs]
                  rfl
                · simp only [XRefResult.resState, List.filter_cons, hqual]
                  rw [setTrailer_count]
                  rfl
              · rw [if_neg hvis]
                obtain ⟨new2, h21, h22⟩ := ih
                  { (setTrailer st d) with
                    incrementalUpdateCount := (setTrailer st d).incrementalUpdateCount + 1,
                    evs := .classicalTrailer (some off)
                             (decide (off.toNat ∈ (setTrailer st d).visitedXRefOffsets))
                             skip :: (setTrailer st d).evs }
                  (.contents off.toNat false)
                refine ⟨new2 ++ (.classicalTrailer (some off)
                    (decide (off.toNat ∈ (setTrailer st d).visitedXRefOffsets)) skip :: []), ?_, ?_⟩
                · rw [h21]
                  simp only [List.append_assoc, List.cons_append, List.nil_append]
                  rw [setTrailer_evs]
                · rw [h22]
                  simp [List.filter_append, List.filter_cons, hqual, setTrailer_count]
                  omega
          · rw [if_neg hpos]
            have hqual : PrevEvent.qualifies
                (.classicalTrailer (some off)
                  (decide (off.toNat ∈ (setTrailer st d).visitedXRefOffsets)) skip) = false := by
              simp [PrevEvent.qualifies]
              omega
            refine ⟨.classicalTrailer (some off)
                (decide (off.toNat ∈ (setTrailer st d).visitedXRefOffsets)) skip :: [], ?_, ?_⟩
            · simp only [XRefResult.resState]
              rw [setTrailer_evs]
              rfl
            · simp only [XRefResult.resState, List.filter_cons, hqual]
              rw [setTrailer_count]
              rfl
    | streamContents offset skip =>
      simp only [walk]
      cases hf : file offset with
      | none =>
        exact ⟨[], by simp [XRefResult.resState], by simp [XRefResult.resState]⟩
      | some sec =>
        cases sec with
        | classical d =>
          exact ⟨[], by simp [XRefResult.resState], by simp [XRefResult.resState]⟩
        | stream d =>
          simp only []
          cases hp : tryGetPreviousOffset d with
          | none =>
            simp only []
            refine ⟨.streamObj none offset skip :: [], ?_, ?_⟩
            · simp only [XRefResult.resState]
              rw [setTrailer_evs]
              rfl
            · simp only [XRefResult.resState, List.filter_cons]
              have : PrevEvent.qualifies (.streamObj none offset skip) = false := rfl
              rw [this]
              simp only [List.filter_nil, List.length_nil]
              rw [setTrailer_count]
              rfl
          | some p =>
            simp only []
            have hqual : PrevEvent.qualifies (.streamObj (some p) offset skip)
                = decide (p ≠ offset) := rfl
            by_cases hpo : p ≠ offset
            · rw [if_pos hpo]
              by_cases hskip : skip
              · rw [if_pos hskip]
                refine ⟨.streamObj (some p) offset skip :: [], ?_, ?_⟩
                · simp only [XRefResult.resState]
                  rw [setTrailer_evs]
                  rfl
                · simp only [XRefResult.resState, List.filter_cons, hqual]
                  simp only [decide_eq_true hpo]
                  rw [setTrailer_count]
                  simp
              · rw [if_neg hskip]
                obtain ⟨new2, h21, h22⟩ := ih
                  { (setTrailer { st with readsStream := offset :: st.readsStream } d) with
                    evs := .streamObj (some p) offset skip ::
                             (setTrailer { st with readsStream := offset :: st.readsStream } d).evs,
                    incrementalUpdateCount :=
                      (setTrailer { st with readsStream := offset :: st.readsStream } d).incrementalUpdateCount + 1 }
                  (.contents p false)
                refine ⟨new2 ++ (.streamObj (some p) offset skip :: []), ?_, ?_⟩
                · rw [h21]
                  simp only [List.append_assoc, List.cons_append, List.nil_append]
                  rw [setTrailer_evs]
                · rw [h22]
                  simp [List.filter_append, List.filter_cons, hqual,
                        decide_eq_true hpo, setTrailer_count]
                  omega
            · rw [if_neg hpo]
              refine ⟨.streamObj (some p) offset skip :: [], ?_, ?_⟩
              · simp only [XRefResult.resState]
                rw [setTrailer_evs]
                rfl
              · simp only [XRefResult.resState, List.filter_cons, hqual]
                have : decide (p ≠ offset) = false := by
                  simp at hpo
                  simp [hpo]
                rw [this]
                simp only [List.filter_nil, List.length_nil]
                rw [setTrailer_count]
                rfl

/-- Once an offset is in the visited set it stays there, and the
classical-table read trace at that offset can never grow again: the read
is recorded only after the cycle guard has passed. -/
theorem walk_visited_reads (file : XRefFile) :
    ∀ (fuel : Nat) (st : ParserState) (call : WalkCall),
      (∀ o, o ∈ st.visitedXRefOffsets →
          o ∈ (walk file fuel st call).resState.visitedXRefOffsets) ∧
      (∀ o, o ∈ st.visitedXRefOffsets →
          (walk file fuel st call).resState.readsTable.count o
            = st.readsTable.count o) := by
  intro fuel
  induction fuel with
  | zero =>
    intro st call
    exact ⟨fun o ho => by simpa [walk, XRefResult.resState] using ho,
           fun o ho => by simp [walk, XRefResult.resState]⟩
  | succ fuel ih =>
    intro st call
    cases call with
    | contents offset skip =>
      simp only [walk]
      by_cases hv : offset ∈ st.visitedXRefOffsets
      · rw [if_pos hv]
        exact ⟨fun o ho => ho, fun o ho => rfl⟩
      · rw [if_neg hv]
        cases hf : file offset with
        | none =>
          constructor
          · intro o ho
            simp only [XRefResult.resState]
            exact List.mem_cons_of_mem _ ho
          · intro o ho
            rfl
        | some sec =>
          cases sec with
          | classical d =>
            simp only []
            obtain ⟨ihv, ihc⟩ := ih
              { st with visitedXRefOffsets := offset :: st.visitedXRefOffsets,
                        readsTable := offset ::
                          ({ st with visitedXRefOffsets :=
                              offset :: st.visitedXRefOffsets } : ParserState).readsTable }
              (.nextTrailer d skip)
            constructor
            · intro o ho
              exact ihv o (List.mem_cons_of_mem _ ho)
            · intro o ho
              rw [ihc o (List.mem_cons_of_mem _ ho)]
              have hne : o ≠ offset := fun h => hv (h ▸ ho)
              exact List.count_cons_of_ne hne _
          | stream d =>
            simp only []
            obtain ⟨ihv, ihc⟩ := ih
              { st with visitedXRefOffsets := offset :: st.visitedXRefOffsets }
              (.streamContents offset skip)
            cases hr : walk file fuel
                { st with visitedXRefOffsets := offset :: st.visitedXRefOffsets }
                (.streamContents offset skip) with
            | ok st2 =>
              rw [hr] at ihv ihc
              constructor
              · intro o ho
                exact ihv o (List.mem_cons_of_mem _ ho)
              · intro o ho
                exact ihc o (List.mem_cons_of_mem _ ho)
            | err e st2 =>
              rw [hr] at ihv ihc
              constructor
              · intro o ho
                exact ihv o (List.mem_cons_of_mem _ ho)
              · intro o ho
                exact ihc o (List.mem_cons_of_mem _ ho)
    | nextTrailer d skip =>
      simp only [walk]
      cases hstm : lookupNum d ("XRefStm") with
      | some so =>
        simp only []
        obtain ⟨ihv1, ihc1⟩ := ih (setTrailer st d) (.streamContents so.toNat skip)
        cases hr : walk file fuel (setTrailer st d) (.streamContents so.toNat skip) with
        | err e st2 =>
          rw [hr] at ihv1 ihc1
          simp only [XRefResult.resState, setTrailer_visited, setTrailer_readsTable]
            at ihv1 ihc1 ⊢
          exact ⟨ihv1, ihc1⟩
        | ok st2 =>
          rw [hr] at ihv1 ihc1
          simp only [XRefResult.resState, setTrailer_visited, setTrailer_readsTable]
            at ihv1 ihc1
          cases hprev : lookupNum d ("Prev") with
          | none =>
            simp only []
            exact ⟨ihv1, ihc1⟩
          | some off =>
            simp only []
            by_cases hpos : 0 < off
            · rw [if_pos hpos]
              by_cases hskip : skip
              · rw [if_pos hskip]
                exact ⟨ihv1, ihc1⟩
              · rw [if_neg hskip]
                by_cases hvis : (decide (off.toNat ∈ st2.visitedXRefOffsets)) = true
                · rw [if_pos hvis]
                  exact ⟨ihv1, ihc1⟩
                · rw [if_neg hvis]
                  obtain ⟨ihv2, ihc2⟩ := ih
                    { st2 with
                      incrementalUpdateCount := st2.incrementalUpdateCount + 1,
                      evs := .classicalTrailer (some off)
                               (decide (off.toNat ∈ st2.visitedXRefOffsets)) skip :: st2.evs }
                    (.contents off.toNat false)
                  constructor
                  · intro o ho
                    exact ihv2 o (ihv1 o ho)
                  · intro o ho
                    rw [ihc2 o (ihv1 o ho)]
                    exact ihc1 o ho
            · rw [if_neg hpos]
              exact ⟨ihv1, ihc1⟩
      | none =>
        simp only []
        cases hprev : lookupNum d ("Prev") with
        | none =>
          simp only []
          constructor
          · intro o ho
            simpa [XRefResult.resState, setTrailer_visited] using ho
          · intro o ho
            simp [XRefResult.resState, setTrailer_readsTable]
        | some off =>
          simp only []
          by_cases hpos : 0 < off
          · rw [if_pos hpos]
            by_cases hskip : skip
            · rw [if_pos hskip]
              constructor
              · intro o ho
                simpa [XRefResult.resState, setTrailer_visited] using ho
              · intro o ho
                simp [XRefResult.resState, setTrailer_readsTable]
            · rw [if_neg hskip]
              by_cases hvis : (decide (off.toNat ∈ (setTrailer st d).visitedXRefOffsets)) = true
              · rw [if_pos hvis]
                constructor
                · intro o ho
                  simpa [XRefResult.resState, setTrailer_visited] using ho
                · intro o ho
                  simp [XRefResult.resState, setTrailer_readsTable]
              · rw [if_neg hvis]
                obtain ⟨ihv2, ihc2⟩ := ih
                  { (setTrailer st d) with
                    incrementalUpdateCount := (setTrailer st d).incrementalUpdateCount + 1,
                    evs := .classicalTrailer (some off)
                             (decide (off.toNat ∈ (setTrailer st d).visitedXRefOffsets))
                             skip :: (setTrailer st d).evs }
                  (.contents off.toNat false)
                constructor
                · intro o ho
                  apply ihv2
                  show o ∈ (setTrailer st d).visitedXRefOffsets
                  rw [setTrailer_visited]
                  exact ho
                · intro o ho
                  have ho' : o ∈ (setTrailer st d).visitedXRefOffsets := by
                    rw [setTrailer_visited]; exact ho
                  rw [ihc2 o ho']
                  show (setTrailer st d).readsTable.count o = st.readsTable.count o
                  rw [setTrailer_readsTable]
          · rw [if_neg hpos]
            constructor
            · intro o ho
              simpa [XRefResult.resState, setTrailer_visited] using ho
            · intro o ho
              simp [XRefResult.resState, setTrailer_readsTable]
    | streamContents offset skip =>
      simp only [walk]
      cases hf : file offset with
      | none =>
        exact ⟨fun o ho => by simpa [XRefResult.resState] using ho,
               fun o ho => by simp [XRefResult.resState]⟩
      | some sec =>
        cases sec with
        | classical d =>
          exact ⟨fun o ho => by simpa [XRefResult.resState] using ho,
                 fun o ho => by simp [XRefResult.resState]⟩
        | stream d =>
          simp only []
          cases hp : tryGetPreviousOffset d with
          | none =>
            simp only []
            constructor
            · intro o ho
              simpa [XRefResult.resState, setTrailer_visited] using ho
            · intro o ho
              simp [XRefResult.resState, setTrailer_readsTable]
          | some p =>
            simp only []
            by_cases hpo : p ≠ offset
            · rw [if_pos hpo]
              by_cases hskip : skip
              · rw [if_pos hskip]
                constructor
                · intro o ho
                  simpa [XRefResult.resState, setTrailer_visited] using ho
                · intro o ho
                  simp [XRefResult.resState, setTrailer_readsTable]
              · rw [if_neg hskip]
                obtain ⟨ihv2, ihc2⟩ := ih
                  { (setTrailer { st with readsStream := offset :: st.readsStream } d) with
                    evs := .streamObj (some p) offset skip ::
                             (setTrailer { st with readsStream := offset :: st.readsStream } d).evs,
                    incrementalUpdateCount :=
                      (setTrailer { st with readsStream := offset :: st.readsStream } d).incrementalUpdateCount + 1 }
                  (.contents p false)
                constructor
                · intro o ho
                  apply ihv2
                  show o ∈ (setTrailer { st with readsStream := offset :: st.readsStream } d).visitedXRefOffsets
                  rw [setTrailer_visited]
                  exact ho
                · intro o ho
                  have ho' : o ∈ (setTrailer { st with readsStream := offset :: st.readsStream } d).visitedXRefOffsets := by
                    rw [setTrailer_visited]; exact ho
                  rw [ihc2 o ho']
                  show (setTrailer { st with readsStream := offset :: st.readsStream } d).readsTable.count o
                      = st.readsTable.count o
                  rw [setTrailer_readsTable]
            · rw [if_neg hpo]
              constructor
              · intro o ho
                simpa [XRefResult.resState, setTrailer_visited] using ho
              · intro o ho
                simp [XRefResult.resState, setTrailer_readsTable]

/-- A fresh parser state, as left by the constructor calling reset. -/
def initialParserState : ParserState :=
  { pdfVersion := pdfVersionDefault, loadOnDemand := false, magicOffset := 0,
    hasXRefStream := false, xrefOffset := 0, lastEOFOffset := 0,
    trailer := none, entries := [], encrypt := false,
    ignoreBrokenObjects := true, incrementalUpdateCount := 0,
    visitedXRefOffsets := [], readsTable := [], readsStream := [], evs := [] }

/-- The synthetic file of the claim: a classical xref section at offset
100 whose trailer carries Prev 100. -/
def selfPrevFile : XRefFile := fun o =>
  if o = 100 then some (.classical [(("Prev"), PdfVal.int 100)]) else none

/-- C2 counterexample: parsing the self-referential Prev file does not
raise InvalidXRef at all; the section is read once and the walk returns
successfully, the already-visited Prev offset being skipped with a log
message. -/
theorem prev_self_cycle_no_error :
    (readXRefContents selfPrevFile maxRecursionDepth initialParserState 100 false).isOk
      = true
    ∧ (readXRefContents selfPrevFile maxRecursionDepth
        initialParserState 100 false).resState.readsTable.count 100 = 1 :=
  ⟨by decide, by decide⟩

/-- C2 amended: for any classical section at O whose trailer has Prev O,
the walk reads the section exactly once, increments the incremental
update counter, skips the second read of the visited offset, and
finishes without error; the InvalidXRef cycle error fires only when
ReadXRefContents itself is entered on an already visited offset. -/
theorem prev_self_cycle_skipped (file : XRefFile) (fuel O : Nat) (d : Dict)
    (st : ParserState)
    (hO : 0 < O) (hvis : O ∉ st.visitedXRefOffsets)
    (hfile : file O = some (.classical d))
    (hprev : lookupNum d ("Prev") = some ((O : Nat) : Int))
    (hstm : lookupNum d ("XRefStm") = none) :
    (readXRefContents file (fuel + 2) st O false).isOk = true
    ∧ (readXRefContents file (fuel + 2) st O false).resState.readsTable.count O
        = st.readsTable.count O + 1
    ∧ (readXRefContents file (fuel + 2) st O false).resState.incrementalUpdateCount
        = st.incrementalUpdateCount + 1
    ∧ (readXRefContents file 1 { st with visitedXRefOffsets := O :: st.visitedXRefOffsets }
        O false) = .err cycleError { st with visitedXRefOffsets := O :: st.visitedXRefOffsets } := by
  have hO' : (0 : Int) < ((O : Nat) : Int) := by exact_mod_cast hO
  unfold readXRefContents
  refine ⟨?_, ?_, ?_, ?_⟩
  · simp [walk, hfile, hstm, hprev, hvis, hO', XRefResult.isOk, XRefResult.resState,
          setTrailer_visited, setTrailer_readsTable, setTrailer_count, setTrailer_evs]
  · simp [walk, hfile, hstm, hprev, hvis, hO', XRefResult.isOk, XRefResult.resState,
          setTrailer_visited, setTrailer_readsTable, setTrailer_count, setTrailer_evs,
          List.count_cons_self]
  · simp [walk, hfile, hstm, hprev, hvis, hO', XRefResult.isOk, XRefResult.resState,
          setTrailer_visited, setTrailer_readsTable, setTrailer_count, setTrailer_evs]
  · simp [walk]

/-- Witness for C2 amended at the synthetic file of the claim. -/
theorem prev_self_cycle_skipped_witness :
    (readXRefContents selfPrevFile (498 + 2) initialParserState 100 false).isOk = true
    ∧ (readXRefContents selfPrevFile (498 + 2)
        initialParserState 100 false).resState.readsTable.count 100
        = initialParserState.readsTable.count 100 + 1
    ∧ (readXRefContents selfPrevFile (498 + 2)
        initialParserState 100 false).resState.incrementalUpdateCount
        = initialParserState.incrementalUpdateCount + 1
    ∧ (readXRefContents selfPrevFile 1
        { initialParserState with visitedXRefOffsets := 100 :: initialParserState.visitedXRefOffsets }
        100 false)
      = .err cycleError
          { initialParserState with
            visitedXRefOffsets := 100 :: initialParserState.visitedXRefOffsets } :=
  prev_self_cycle_skipped selfPrevFile 498 100 [(("Prev"), PdfVal.int 100)]
    initialParserState (by decide) (by decide) (by decide) (by decide) (by decide)

/-- The per-trailer increment condition the claim states: Prev present,
positive, and offset not yet visited. -/
def claimedIncrementCondition : PrevEvent → Bool
  | .classicalTrailer (some v) visitedAtTime _ => decide (0 < v) && !visitedAtTime
  | _ => false

/-- C8 counterexample: on the self referential Prev file, the only
trailer processed sees its Prev offset already visited, so under the
claimed condition the counter would stay 0, but the code increments it
to 1. -/
theorem update_count_visited_counterexample :
    (readXRefContents selfPrevFile maxRecursionDepth
        initialParserState 100 false).resState.incrementalUpdateCount = 1
    ∧ ((readXRefContents selfPrevFile maxRecursionDepth
        initialParserState 100 false).resState.evs.filter claimedIncrementCondition).length
        = 0
    ∧ (readXRefContents selfPrevFile maxRecursionDepth
        initialParserState 100 false).resState.evs
        = [.classicalTrailer (some 100) true false] :=
  ⟨by decide, by decide, by decide⟩

/-- C8 amended: the incremental update counter grows by exactly the
number of Prev handling events whose site condition holds - for a
classical trailer, Prev present with a positive numeric value,
regardless of whether the offset was already visited - and the contents
at an already visited offset are never read again. -/
theorem update_count_exact (file : XRefFile) (fuel : Nat) (st : ParserState)
    (d : Dict) (skip : Bool) :
    (∃ new : List PrevEvent,
        (readNextTrailer file fuel st d skip).resState.evs = new ++ st.evs ∧
        (readNextTrailer file fuel st d skip).resState.incrementalUpdateCount
          = st.incrementalUpdateCount + (new.filter PrevEvent.qualifies).length)
    ∧ (∀ (prev : Option Int) (vis sk : Bool),
        (PrevEvent.classicalTrailer prev vis sk).qualifies = true ↔
          ∃ v, prev = some v ∧ 0 < v)
    ∧ (∀ o, o ∈ st.visitedXRefOffsets →
        (readNextTrailer file fuel st d skip).resState.readsTable.count o
          = st.readsTable.count o) := by
  refine ⟨walk_evs file fuel st (.nextTrailer d skip), ?_,
    (walk_visited_reads file fuel st (.nextTrailer d skip)).2⟩
  intro prev vis sk
  cases prev with
  | none => simp [PrevEvent.qualifies]
  | some v => simp [PrevEvent.qualifies]

/-- Witness for C8 amended: with offset 100 already visited, the trailer
with Prev 100 leaves the classical read trace unchanged. -/
theorem update_count_exact_witness :
    (readNextTrailer selfPrevFile 5
        { initialParserState with visitedXRefOffsets := [100] }
        [(("Prev"), PdfVal.int 100)] false).resState.readsTable.count 100
      = ({ initialParserState with
            visitedXRefOffsets := [100] } : ParserState).readsTable.count 100 :=
  (update_count_exact selfPrevFile 5
      { initialParserState with visitedXRefOffsets := [100] }
      [(("Prev"), PdfVal.int 100)] false).2.2 100 (by decide)

/-- A well formed single revision file with no Prev chain. -/
def noPrevFile : XRefFile := fun o =>
  if o = 100 then some (.classical [(("Size"), PdfVal.int 4)]) else none

/-- ReadObjects raising InvalidPassword after failed authentication. -/
def wrongPasswordStep : ParserState → XRefResult := fun st =>
  .err ⟨.invalidPassword, "A password is required to read this PDF file"⟩ st

/-- ReadObjects succeeding, as with the correct password. -/
def successStep : ParserState → XRefResult := fun st => .ok st

/-- C7: on InvalidPassword the state is indeed kept and on other errors
reset runs, but reset does not clear m_visitedXRefOffsets, so the
retry that the InvalidPassword path is designed for always fails: the
second Parse run rejects the already visited xref offset as a cycle,
while the same parse from a fresh state succeeds. -/
theorem invalid_password_retry_broken :
    (parsePdf noPrevFile 100 wrongPasswordStep initialParserState).errCode
      = some .invalidPassword
    ∧ (parsePdf noPrevFile 100 wrongPasswordStep
        initialParserState).resState.visitedXRefOffsets = [100]
    ∧ (parsePdf noPrevFile 100 successStep
        (parsePdf noPrevFile 100 wrongPasswordStep initialParserState).resState).errCode
      = some .invalidXRef
    ∧ (parsePdf noPrevFile 100 successStep initialParserState).isOk = true
    ∧ (resetParser
        (parsePdf noPrevFile 100 wrongPasswordStep
          initialParserState).resState).visitedXRefOffsets = [100] :=
  ⟨by decide, by decide, by decide, by decide, by decide⟩

/-! ## PdfParser::findTokenBackward -/

/-- strncmp of the token against the buffer at position i. -/
def matchAt (buffer token : List Char) (i : Nat) : Bool :=
  decide ((buffer.drop i).take token.length = token)

/-- The backward for loop: starting index counts down to 0, the loop
breaks at the first (that is, rightmost) match, and falls through to -1
when no position matches. -/
def lastMatchAux (b t : List Char) : Nat → Int
  | 0 => if matchAt b t 0 then (0 : Int) else -1
  | i + 1 => if matchAt b t (i + 1) then ((i + 1 : Nat) : Int) else lastMatchAux b t i

/-- Value of the loop variable i after the loop: the C code initialises
i to searchSize - tokenLen as a signed quantity, so when the token is
longer than the window the loop never runs and i keeps its negative
initial value. -/
def lastMatchIdx (b t : List Char) : Int :=
  if t.length ≤ b.length then lastMatchAux b t (b.length - t.length)
  else (b.length : Int) - (t.length : Int)

/-- PdfParser::findTokenBackward on the already read window: buffer holds
the searchSize bytes ending at absolute position searchEnd; the returned
value is the absolute device position after the final Seek. -/
def findTokenBackward (buffer token : List Char) (searchEnd : Nat) :
    Except PdfError Int :=
  let i := lastMatchIdx buffer token
  if i = 0 then .error ⟨.internalLogic, ""⟩
  else .ok ((searchEnd : Int) - ((buffer.length : Int) - i))

theorem lastMatchAux_none (b t : List Char) (h : ∀ i, matchAt b t i = false) :
    ∀ k, lastMatchAux b t k = -1 := by
  intro k
  induction k with
  | zero => simp [lastMatchAux, h 0]
  | succ k ih => simp [lastMatchAux, h (k + 1), ih]

theorem lastMatchAux_match (b t : List Char) :
    ∀ k i : Nat, lastMatchAux b t k = (i : Int) → matchAt b t i = true := by
  intro k
  induction k with
  | zero =>
    intro i h
    unfold lastMatchAux at h
    by_cases hm : matchAt b t 0 = true
    · rw [if_pos hm] at h
      have hi : (0 : Nat) = i := by exact_mod_cast h
      rw [← hi]
      exact hm
    · rw [if_neg hm] at h
      exfalso
      omega
  | succ k ih =>
    intro i h
    unfold lastMatchAux at h
    by_cases hm : matchAt b t (k + 1) = true
    · rw [if_pos hm] at h
      have hi : (k + 1 : Nat) = i := by exact_mod_cast h
      rw [← hi]
      exact hm
    · rw [if_neg hm] at h
      exact ih i h

/-- C10: a backward search whose rightmost match sits at window index 0
raises InternalLogic; a window with no occurrence at all raises nothing
and lands the device one byte before the window start; a rightmost match
at index 1 or greater lands the device exactly on the token. -/
theorem findTokenBackward_spec (b t : List Char) (e : Nat) :
    (lastMatchIdx b t = 0 → findTokenBackward b t e = .error ⟨.internalLogic, ""⟩)
    ∧ ((∀ i, matchAt b t i = false) → t.length ≤ b.length →
        findTokenBackward b t e = .ok ((e : Int) - (b.length : Int) - 1))
    ∧ (∀ i : Nat, lastMatchIdx b t = (i : Int) → 1 ≤ i →
        findTokenBackward b t e = .ok ((e : Int) - (b.length : Int) + (i : Int))
        ∧ matchAt b t i = true) := by
  refine ⟨?_, ?_, ?_⟩
  · intro h
    unfold findTokenBackward
    rw [h]
    simp
  · intro h hlen
    unfold findTokenBackward
    rw [lastMatchIdx, if_pos hlen, lastMatchAux_none b t h]
    rw [if_neg (by decide : ¬(-1 : Int) = 0)]
    congr 1
    ring
  · intro i h hi
    constructor
    · unfold findTokenBackward
      rw [h]
      have hne : ((i : Nat) : Int) ≠ 0 := by
        intro hh
        omega
      rw [if_neg hne]
      congr 1
      omega
    · unfold lastMatchIdx at h
      by_cases hlen : t.length ≤ b.length
      · rw [if_pos hlen] at h
        exact lastMatchAux_match b t _ i h
      · rw [if_neg hlen] at h
        exfalso
        omega

/-- Witness for C10 at a concrete window: the token xref sits at index 3
of the 12 byte window, so the device lands at searchEnd - 12 + 3. -/
theorem findTokenBackward_spec_witness :
    findTokenBackward (String.toList ("ab xref tail")) (String.toList ("xref")) 50
      = .ok ((50 : Int) - (((String.toList ("ab xref tail")).length : Nat) : Int)
          + ((3 : Nat) : Int))
    ∧ matchAt (String.toList ("ab xref tail")) (String.toList ("xref")) 3 = true :=
  (findTokenBackward_spec (String.toList ("ab xref tail"))
      (String.toList ("xref")) 50).2.2 3 (by decide) (by decide)
